import Mathlib

/-!
Shallow embedding of the left-recursion detector in src/src/main.rs.

Rust panics are modelled as `Except.error` values of type `Err`; the
unbounded recursion of `derives_to_symbol` is modelled with an explicit
fuel parameter, where a `none` result means the computation did not
finish within the given recursion depth (so divergence of the Rust
program corresponds to a `none` result at every fuel).
-/

namespace LeftRec

/-- Panic / construction failures of the Rust program.  `invalidSymbol`,
`invalidRule` are the explicit constructor panics; `undefinedNonTerminal` is
the `expect("No matching LHS symbol.")` panic; `emptyProductionAccess` is
the `unwrap()` panic on `symbols.iter().nth(0)` of an empty production. -/
inductive Err where
  | invalidSymbol
  | invalidRule
  | undefinedNonTerminal
  | emptyProductionAccess
deriving DecidableEq, Repr

/-- struct Symbol (main.rs line 7): a single text token. -/
structure Symbol where
  text : String
deriving DecidableEq, Repr

/-- Symbol::new (main.rs line 12): panics when the text is empty. -/
def Symbol.new (text : String) : Except Err Symbol :=
  if text.length == 0 then Except.error Err.invalidSymbol
  else Except.ok (Symbol.mk text)

/-- Symbol::is_terminal (main.rs line 22): the first byte differs from the
byte of the character that opens a non-terminal name.  For the non-empty
UTF-8 strings guaranteed by Symbol::new, comparing the first byte with the
ASCII byte 0x3C is the same as comparing the first character with that
character, which is how we state it here. -/
def Symbol.is_terminal (s : Symbol) : Bool :=
  s.text.data.head? != some '<'

/-- struct Production (main.rs line 28): an ordered list of symbols. -/
structure Production where
  symbols : List Symbol
deriving DecidableEq, Repr

/-- Production::new (main.rs line 33): performs no validation at all; in
particular an empty symbol list is accepted. -/
def Production.new (symbols : List Symbol) : Production :=
  Production.mk symbols

/-- struct Rule (main.rs line 52): a left-hand symbol and its alternatives. -/
structure Rule where
  symbol : Symbol
  derivations : List Production
deriving DecidableEq, Repr

/-- Rule::new (main.rs line 74): builds the LHS symbol with Symbol::new
(which panics on empty text), then panics when the LHS is terminal or when
there are no productions. -/
def Rule.new (symbol : String) (productions : List Production) : Except Err Rule := do
  let lhs_symbol ← Symbol.new symbol
  if lhs_symbol.is_terminal then
    Except.error Err.invalidRule
  else if productions.length == 0 then
    Except.error Err.invalidRule
  else
    Except.ok (Rule.mk lhs_symbol productions)

/-- The fold inside Rule::has_direct_left_recursion (main.rs line 91):
`acc || (p.symbols.iter().nth(0).unwrap().text == self.symbol.text)`.
The Rust `||` short-circuits, so once the accumulator is true the unwrap of
a later production's first symbol is never evaluated; an error accumulator
is impossible to continue past (the program has already panicked). -/
def directScan (lhs : String) : List Production → Except Err Bool → Except Err Bool
  | [], acc => acc
  | p :: ps, acc =>
    directScan lhs ps
      (match acc with
       | Except.ok false =>
         (match p.symbols.head? with
          | none => Except.error Err.emptyProductionAccess
          | some s => Except.ok (s.text == lhs))
       | other => other)

/-- Rule::has_direct_left_recursion (main.rs line 90). -/
def Rule.has_direct_left_recursion (r : Rule) : Except Err Bool :=
  directScan r.symbol.text r.derivations (Except.ok false)

/-- struct Grammar (main.rs line 97): an ordered list of rules. -/
structure Grammar where
  rules : List Rule
deriving DecidableEq, Repr

/-- Grammar::new (main.rs line 102): no validation. -/
def Grammar.new (rules : List Rule) : Grammar :=
  Grammar.mk rules

/-- The fold inside Grammar::derives_to_symbol (main.rs line 128):
`acc || self.derives_to_symbol_helper(production.symbols.iter().nth(0).unwrap(), target)`.
The helper body (compare texts, otherwise recurse) is passed in as `d`.
Once the accumulator is true the rest of the list is skipped by the
short-circuiting `||`; a `none` (non-terminating recursive call) or an
error (panic) accumulator likewise propagates unchanged. -/
def dtsScan (d : Symbol → Symbol → Option (Except Err Bool)) (target : Symbol) :
    List Production → Option (Except Err Bool) → Option (Except Err Bool)
  | [], acc => acc
  | p :: ps, acc =>
    dtsScan d target ps
      (match acc with
       | some (Except.ok false) =>
         (match p.symbols.head? with
          | none => some (Except.error Err.emptyProductionAccess)
          | some s => d s target)
       | other => other)

/-- Grammar::derives_to_symbol (main.rs line 116), with a fuel bound on the
recursion depth.  The body of Grammar::derives_to_symbol_helper
(main.rs line 108) is inlined in the lambda handed to the fold, so that the
recursion is structural on the fuel; the standalone helper below is
definitionally that lambda. -/
def Grammar.derives_to_symbol (g : Grammar) : Nat → Symbol → Symbol → Option (Except Err Bool)
  | 0, _, _ => none
  | fuel + 1, start, target =>
    if start.is_terminal then
      some (Except.ok false)
    else
      match g.rules.find? (fun rule => rule.symbol.text == start.text) with
      | none => some (Except.error Err.undefinedNonTerminal)
      | some starting_rule =>
        dtsScan
          (fun s t =>
            if s.text == t.text then some (Except.ok true)
            else g.derives_to_symbol fuel s t)
          target starting_rule.derivations (some (Except.ok false))

/-- Grammar::derives_to_symbol_helper (main.rs line 108): return true when
the texts already match, otherwise keep deriving. -/
def Grammar.derives_to_symbol_helper (g : Grammar) (fuel : Nat) (start target : Symbol) :
    Option (Except Err Bool) :=
  if start.text == target.text then some (Except.ok true)
  else g.derives_to_symbol fuel start target

/-- The fold inside Grammar::has_indirect_left_recursion (main.rs line 134):
`acc || self.derives_to_symbol(&r.symbol, &r.symbol)`. -/
def indirectScan (d : Symbol → Symbol → Option (Except Err Bool)) :
    List Rule → Option (Except Err Bool) → Option (Except Err Bool)
  | [], acc => acc
  | r :: rs, acc =>
    indirectScan d rs
      (match acc with
       | some (Except.ok false) => d r.symbol r.symbol
       | other => other)

/-- Grammar::has_indirect_left_recursion (main.rs line 133). -/
def Grammar.has_indirect_left_recursion (g : Grammar) (fuel : Nat) : Option (Except Err Bool) :=
  indirectScan (fun s t => g.derives_to_symbol fuel s t) g.rules (some (Except.ok false))

/-- The fold inside Grammar::has_left_recursion (main.rs line 140):
`acc || r.has_direct_left_recursion()`. -/
def directAnyScan : List Rule → Except Err Bool → Except Err Bool
  | [], acc => acc
  | r :: rs, acc =>
    directAnyScan rs
      (match acc with
       | Except.ok false => r.has_direct_left_recursion
       | other => other)

/-- Grammar::has_left_recursion (main.rs line 139): evaluate the direct scan
first; when it yields true, return true without touching the indirect
check; otherwise fall through to the indirect check. -/
def Grammar.has_left_recursion (g : Grammar) (fuel : Nat) : Option (Except Err Bool) :=
  match directAnyScan g.rules (Except.ok false) with
  | Except.error e => some (Except.error e)
  | Except.ok true => some (Except.ok true)
  | Except.ok false => g.has_indirect_left_recursion fuel

/-! Concrete symbols, rules and grammars used by the example-based claims. -/

/-- The non-terminal symbol with text between angle brackets naming A. -/
def symA : Symbol := Symbol.mk "<A>"

/-- The non-terminal symbol with text naming B. -/
def symB : Symbol := Symbol.mk "<B>"

/-- The non-terminal symbol with text naming C. -/
def symC : Symbol := Symbol.mk "<C>"

/-- The terminal symbol x. -/
def symX : Symbol := Symbol.mk "x"

/-- The terminal symbol y. -/
def symY : Symbol := Symbol.mk "y"

/-- The rule <A> := <A>. -/
def ruleSelfA : Rule := Rule.mk symA [Production.mk [symA]]

/-- The one-rule grammar containing only <A> := <A>. -/
def gA : Grammar := Grammar.mk [ruleSelfA]

/-- The rule <A> := x. -/
def ruleAx : Rule := Rule.mk symA [Production.mk [symX]]

/-- A grammar with two rules sharing the left-hand text <A>:
first <A> := x, then <A> := <A>. -/
def gDup : Grammar := Grammar.mk [ruleAx, ruleSelfA]

/-- The rule <A> := <B>. -/
def ruleAtoB : Rule := Rule.mk symA [Production.mk [symB]]

/-- The rule <B> := <A>. -/
def ruleBtoA : Rule := Rule.mk symB [Production.mk [symA]]

/-- A grammar whose leftmost-derivation graph is the pure two-cycle
A to B to A, with no terminal on the cycle. -/
def gCycle : Grammar := Grammar.mk [ruleAtoB, ruleBtoA]

/-- The rule <A> := <A> x | y (direct left recursion present). -/
def ruleEx1 : Rule := Rule.mk symA [Production.mk [symA, symX], Production.mk [symY]]

/-- The rule <A> := x <A> | y (no direct left recursion). -/
def ruleEx2 : Rule := Rule.mk symA [Production.mk [symX, symA], Production.mk [symY]]

/-- Build one production from the texts of its symbols, going through
Symbol::new and Production::new exactly as fn main does. -/
def mkProd (texts : List String) : Except Err Production := do
  let syms ← texts.mapM Symbol.new
  pure (Production.new syms)

/-- Build one rule from its left-hand text and the texts of each
alternative, going through the constructors exactly as fn main does. -/
def mkRule (lhs : String) (alts : List (List String)) : Except Err Rule := do
  let prods ← alts.mapM mkProd
  Rule.new lhs prods

/-- The grammar literally constructed in fn main (main.rs line 178): the
example regex grammar, built through the same constructor chain. -/
def mainGrammar : Except Err Grammar := do
  let rs ← [
    ("<REGEX>", [["<LOW_PRECEDENCE>"]]),
    ("<LOW_PRECEDENCE>", [["<MED_PRECEDENCE>", "<ALTERNAT>"]]),
    ("<ALTERNAT>", [["|", "<LOW_PRECEDENCE>"], ["EmptyString"]]),
    ("<MED_PRECEDENCE>", [["<HIGH_PRECEDENCE>", "<CONCAT>"]]),
    ("<CONCAT>", [["<MED_PRECEDENCE>"], ["EmptyString"]]),
    ("<HIGH_PRECEDENCE>", [["<GIGA_PRECEDENCE>", "<KLEENE>"]]),
    ("<KLEENE>", [["*"], ["EmptyString"]]),
    ("<GIGA_PRECEDENCE>", [["(", "<LOW_PRECEDENCE>", ")"], ["<TERMINAL>"]]),
    ("<TERMINAL>", [["EmptySet"], ["EmptyString"], ["C"]])
  ].mapM (fun pr => mkRule pr.1 pr.2)
  pure (Grammar.new rs)

/-! Lemmas about the fold embeddings.  Each scan is a left fold whose
accumulator, once it leaves the `ok false` state, is carried through
unchanged (the Rust `||` short-circuits on true, and a panic or an
unfinished recursive call ends the whole evaluation). -/

theorem dtsScan_trueAcc (d : Symbol → Symbol → Option (Except Err Bool)) (target : Symbol) :
    ∀ l : List Production, dtsScan d target l (some (Except.ok true)) = some (Except.ok true) := by
  intro l
  induction l with
  | nil => rfl
  | cons p ps ih => simpa [dtsScan] using ih

theorem dtsScan_noneAcc (d : Symbol → Symbol → Option (Except Err Bool)) (target : Symbol) :
    ∀ l : List Production, dtsScan d target l none = none := by
  intro l
  induction l with
  | nil => rfl
  | cons p ps ih => simpa [dtsScan] using ih

theorem dtsScan_errorAcc (d : Symbol → Symbol → Option (Except Err Bool)) (target : Symbol)
    (e : Err) :
    ∀ l : List Production, dtsScan d target l (some (Except.error e)) = some (Except.error e) := by
  intro l
  induction l with
  | nil => rfl
  | cons p ps ih => simpa [dtsScan] using ih

/-- When the production fold finishes with an ordinary boolean, that boolean
is true exactly when some alternative's first symbol is accepted by the
helper `d`. -/
theorem dtsScan_eq_ok (d : Symbol → Symbol → Option (Except Err Bool)) (target : Symbol) :
    ∀ (l : List Production) (b : Bool),
      dtsScan d target l (some (Except.ok false)) = some (Except.ok b) →
      (b = true ↔ ∃ p ∈ l, ∃ s, p.symbols.head? = some s ∧ d s target = some (Except.ok true)) := by
  intro l
  induction l with
  | nil =>
    intro b h
    simp only [dtsScan, Option.some.injEq, Except.ok.injEq] at h
    simp [← h]
  | cons p ps ih =>
    intro b h
    simp only [dtsScan] at h
    cases hh : p.symbols.head? with
    | none =>
      simp only [hh] at h
      rw [dtsScan_errorAcc] at h
      exact absurd h (by simp)
    | some s =>
      simp only [hh] at h
      cases hd : d s target with
      | none =>
        rw [hd] at h
        rw [dtsScan_noneAcc] at h
        exact absurd h (by simp)
      | some v =>
        cases v with
        | error e =>
          rw [hd] at h
          rw [dtsScan_errorAcc] at h
          exact absurd h (by simp)
        | ok bv =>
          cases bv with
          | true =>
            rw [hd] at h
            rw [dtsScan_trueAcc] at h
            have hb : b = true := by simpa using h.symm
            subst hb
            simp only [true_iff]
            exact ⟨p, List.mem_cons_self p ps, s, hh, hd⟩
          | false =>
            rw [hd] at h
            rw [ih b h]
            constructor
            · rintro ⟨q, hq, s2, hs2, hd2⟩
              exact ⟨q, List.mem_cons_of_mem p hq, s2, hs2, hd2⟩
            · rintro ⟨q, hq, s2, hs2, hd2⟩
              rcases List.mem_cons.mp hq with hqp | hqps
              · subst hqp
                rw [hh] at hs2
                have hss : s = s2 := by simpa using hs2
                subst hss
                rw [hd] at hd2
                exact absurd hd2 (by simp)
              · exact ⟨q, hqps, s2, hs2, hd2⟩

theorem directScan_trueAcc (lhs : String) :
    ∀ l : List Production, directScan lhs l (Except.ok true) = Except.ok true := by
  intro l
  induction l with
  | nil => rfl
  | cons p ps ih => simpa [directScan] using ih

theorem directScan_errorAcc (lhs : String) (e : Err) :
    ∀ l : List Production, directScan lhs l (Except.error e) = Except.error e := by
  intro l
  induction l with
  | nil => rfl
  | cons p ps ih => simpa [directScan] using ih

/-- When the direct-recursion fold finishes with an ordinary boolean, that
boolean is true exactly when some production's first symbol has the
left-hand text. -/
theorem directScan_eq_ok (lhs : String) :
    ∀ (l : List Production) (b : Bool),
      directScan lhs l (Except.ok false) = Except.ok b →
      (b = true ↔ ∃ p ∈ l, ∃ s, p.symbols.head? = some s ∧ s.text = lhs) := by
  intro l
  induction l with
  | nil =>
    intro b h
    simp only [directScan, Except.ok.injEq] at h
    simp [← h]
  | cons p ps ih =>
    intro b h
    simp only [directScan] at h
    cases hh : p.symbols.head? with
    | none =>
      simp only [hh] at h
      rw [directScan_errorAcc] at h
      exact absurd h (by simp)
    | some s =>
      simp only [hh] at h
      cases hst : (s.text == lhs) with
      | true =>
        rw [hst] at h
        rw [directScan_trueAcc] at h
        have hb : b = true := by simpa using h.symm
        subst hb
        simp only [true_iff]
        exact ⟨p, List.mem_cons_self p ps, s, hh, by simpa using hst⟩
      | false =>
        rw [hst] at h
        rw [ih b h]
        constructor
        · rintro ⟨q, hq, s2, hs2, hd2⟩
          exact ⟨q, List.mem_cons_of_mem p hq, s2, hs2, hd2⟩
        · rintro ⟨q, hq, s2, hs2, hd2⟩
          rcases List.mem_cons.mp hq with hqp | hqps
          · subst hqp
            rw [hh] at hs2
            have hss : s = s2 := by simpa using hs2
            subst hss
            have hbe : (s.text == lhs) = true := by simpa using hd2
            rw [hst] at hbe
            exact absurd hbe (by simp)
          · exact ⟨q, hqps, s2, hs2, hd2⟩

/-- With no empty production in the list, the direct-recursion fold cannot
hit the unwrap panic, so it produces an ordinary boolean. -/
theorem directScan_total (lhs : String) :
    ∀ l : List Production, (∀ p ∈ l, p.symbols ≠ []) →
      ∃ c, directScan lhs l (Except.ok false) = Except.ok c := by
  intro l
  induction l with
  | nil => exact fun _ => ⟨false, rfl⟩
  | cons p ps ih =>
    intro h
    have hp : p.symbols ≠ [] := h p (List.mem_cons_self p ps)
    obtain ⟨s, rest, hs⟩ : ∃ s rest, p.symbols = s :: rest := by
      cases hsym : p.symbols with
      | nil => exact absurd hsym hp
      | cons a l2 => exact ⟨a, l2, rfl⟩
    have hh : p.symbols.head? = some s := by rw [hs]; rfl
    simp only [directScan, hh]
    cases hst : (s.text == lhs) with
    | true => exact ⟨true, directScan_trueAcc lhs ps⟩
    | false => exact ih (fun q hq => h q (List.mem_cons_of_mem p hq))

theorem indirectScan_trueAcc (d : Symbol → Symbol → Option (Except Err Bool)) :
    ∀ l : List Rule, indirectScan d l (some (Except.ok true)) = some (Except.ok true) := by
  intro l
  induction l with
  | nil => rfl
  | cons r rs ih => simpa [indirectScan] using ih

theorem indirectScan_noneAcc (d : Symbol → Symbol → Option (Except Err Bool)) :
    ∀ l : List Rule, indirectScan d l none = none := by
  intro l
  induction l with
  | nil => rfl
  | cons r rs ih => simpa [indirectScan] using ih

theorem indirectScan_errorAcc (d : Symbol → Symbol → Option (Except Err Bool)) (e : Err) :
    ∀ l : List Rule, indirectScan d l (some (Except.error e)) = some (Except.error e) := by
  intro l
  induction l with
  | nil => rfl
  | cons r rs ih => simpa [indirectScan] using ih

/-- When the rule fold of the indirect check finishes with an ordinary
boolean, that boolean is true exactly when some rule reaches itself. -/
theorem indirectScan_eq_ok (d : Symbol → Symbol → Option (Except Err Bool)) :
    ∀ (l : List Rule) (b : Bool),
      indirectScan d l (some (Except.ok false)) = some (Except.ok b) →
      (b = true ↔ ∃ r ∈ l, d r.symbol r.symbol = some (Except.ok true)) := by
  intro l
  induction l with
  | nil =>
    intro b h
    simp only [indirectScan, Option.some.injEq, Except.ok.injEq] at h
    simp [← h]
  | cons r rs ih =>
    intro b h
    simp only [indirectScan] at h
    cases hd : d r.symbol r.symbol with
    | none =>
      rw [hd] at h
      rw [indirectScan_noneAcc] at h
      exact absurd h (by simp)
    | some v =>
      cases v with
      | error e =>
        rw [hd] at h
        rw [indirectScan_errorAcc] at h
        exact absurd h (by simp)
      | ok bv =>
        cases bv with
        | true =>
          rw [hd] at h
          rw [indirectScan_trueAcc] at h
          have hb : b = true := by simpa using h.symm
          subst hb
          simp only [true_iff]
          exact ⟨r, List.mem_cons_self r rs, hd⟩
        | false =>
          rw [hd] at h
          rw [ih b h]
          constructor
          · rintro ⟨q, hq, hd2⟩
            exact ⟨q, List.mem_cons_of_mem r hq, hd2⟩
          · rintro ⟨q, hq, hd2⟩
            rcases List.mem_cons.mp hq with hqr | hqrs
            · subst hqr
              rw [hd] at hd2
              exact absurd hd2 (by simp)
            · exact ⟨q, hqrs, hd2⟩

/-- When the rule fold of the indirect check finishes with false, every
rule's self-reachability query finished with false. -/
theorem indirectScan_false_all (d : Symbol → Symbol → Option (Except Err Bool)) :
    ∀ l : List Rule,
      indirectScan d l (some (Except.ok false)) = some (Except.ok false) →
      ∀ r ∈ l, d r.symbol r.symbol = some (Except.ok false) := by
  intro l
  induction l with
  | nil => intro _ r hr; cases hr
  | cons r rs ih =>
    intro h q hq
    simp only [indirectScan] at h
    cases hd : d r.symbol r.symbol with
    | none =>
      rw [hd] at h
      rw [indirectScan_noneAcc] at h
      exact absurd h (by simp)
    | some v =>
      cases v with
      | error e =>
        rw [hd] at h
        rw [indirectScan_errorAcc] at h
        exact absurd h (by simp)
      | ok bv =>
        cases bv with
        | true =>
          rw [hd] at h
          rw [indirectScan_trueAcc] at h
          exact absurd h (by simp)
        | false =>
          rw [hd] at h
          rcases List.mem_cons.mp hq with hqr | hqrs
          · subst hqr; exact hd
          · exact ih h q hqrs

theorem directAnyScan_trueAcc :
    ∀ l : List Rule, directAnyScan l (Except.ok true) = Except.ok true := by
  intro l
  induction l with
  | nil => rfl
  | cons r rs ih => simpa [directAnyScan] using ih

theorem directAnyScan_errorAcc (e : Err) :
    ∀ l : List Rule, directAnyScan l (Except.error e) = Except.error e := by
  intro l
  induction l with
  | nil => rfl
  | cons r rs ih => simpa [directAnyScan] using ih

/-- When the rule fold of the direct check finishes with an ordinary
boolean, that boolean is true exactly when some rule reports direct left
recursion. -/
theorem directAnyScan_eq_ok :
    ∀ (l : List Rule) (b : Bool),
      directAnyScan l (Except.ok false) = Except.ok b →
      (b = true ↔ ∃ r ∈ l, r.has_direct_left_recursion = Except.ok true) := by
  intro l
  induction l with
  | nil =>
    intro b h
    simp only [directAnyScan, Except.ok.injEq] at h
    simp [← h]
  | cons r rs ih =>
    intro b h
    simp only [directAnyScan] at h
    cases hd : r.has_direct_left_recursion with
    | error e =>
      rw [hd] at h
      rw [directAnyScan_errorAcc] at h
      exact absurd h (by simp)
    | ok bv =>
      cases bv with
      | true =>
        rw [hd] at h
        rw [directAnyScan_trueAcc] at h
        have hb : b = true := by simpa using h.symm
        subst hb
        simp only [true_iff]
        exact ⟨r, List.mem_cons_self r rs, hd⟩
      | false =>
        rw [hd] at h
        rw [ih b h]
        constructor
        · rintro ⟨q, hq, hd2⟩
          exact ⟨q, List.mem_cons_of_mem r hq, hd2⟩
        · rintro ⟨q, hq, hd2⟩
          rcases List.mem_cons.mp hq with hqr | hqrs
          · subst hqr
            rw [hd] at hd2
            exact absurd hd2 (by simp)
          · exact ⟨q, hqrs, hd2⟩

/-- With no empty production anywhere, the rule fold of the direct check
cannot hit the unwrap panic. -/
theorem directAnyScan_total :
    ∀ l : List Rule, (∀ r ∈ l, ∀ p ∈ r.derivations, p.symbols ≠ []) →
      ∃ c, directAnyScan l (Except.ok false) = Except.ok c := by
  intro l
  induction l with
  | nil => exact fun _ => ⟨false, rfl⟩
  | cons r rs ih =>
    intro h
    obtain ⟨c0, hc0⟩ :=
      directScan_total r.symbol.text r.derivations (h r (List.mem_cons_self r rs))
    simp only [directAnyScan]
    rw [show r.has_direct_left_recursion = Except.ok c0 from hc0]
    cases c0 with
    | true => exact ⟨true, directAnyScan_trueAcc rs⟩
    | false => exact ih (fun q hq => h q (List.mem_cons_of_mem r hq))

/-- C1: for every grammar (with the constructor-guaranteed absence of empty
productions), has_left_recursion returns true if and only if some rule
reports direct left recursion or the grammar reports indirect left
recursion; and when some rule reports direct left recursion the result is
true already at fuel zero, i.e. without the indirect check being able to
contribute anything. -/
theorem C1_has_left_recursion_spec (g : Grammar) (fuel : Nat)
    (hne : ∀ r ∈ g.rules, ∀ p ∈ r.derivations, p.symbols ≠ []) :
    (g.has_left_recursion fuel = some (Except.ok true) ↔
      ((∃ r ∈ g.rules, r.has_direct_left_recursion = Except.ok true) ∨
        g.has_indirect_left_recursion fuel = some (Except.ok true)))
    ∧ ((∃ r ∈ g.rules, r.has_direct_left_recursion = Except.ok true) →
        g.has_left_recursion 0 = some (Except.ok true)) := by
  obtain ⟨c, hc⟩ := directAnyScan_total g.rules hne
  have hiff := directAnyScan_eq_ok g.rules c hc
  constructor
  · simp only [Grammar.has_left_recursion, hc]
    cases c with
    | true =>
      constructor
      · intro _
        exact Or.inl (hiff.mp rfl)
      · intro _
        rfl
    | false =>
      constructor
      · intro h2
        exact Or.inr h2
      · rintro (hdir | hind)
        · exact absurd (hiff.mpr hdir) (by simp)
        · exact hind
  · intro hdir
    have hct : c = true := hiff.mpr hdir
    subst hct
    simp only [Grammar.has_left_recursion, hc]

/-- C1 witness: on the one-rule grammar <A> := <A> the combined check is
true, and already at fuel zero (where the indirect check alone could not
finish), exhibiting the short-circuit. -/
theorem C1_witness :
    gA.has_left_recursion 1 = some (Except.ok true)
    ∧ gA.has_left_recursion 0 = some (Except.ok true) :=
  ⟨(C1_has_left_recursion_spec gA 1 (by decide)).1.mpr
      (Or.inl ⟨ruleSelfA, List.mem_cons_self ruleSelfA [], rfl⟩),
    (C1_has_left_recursion_spec gA 0 (by decide)).2
      ⟨ruleSelfA, List.mem_cons_self ruleSelfA [], rfl⟩⟩

/-- C2: derives_to_symbol returns false on a terminal start symbol; panics
with the undefined-non-terminal error when no rule's left-hand text matches
a non-terminal start; and otherwise, whenever the evaluation finishes with
a boolean, that boolean is true exactly when some alternative of the looked
up rule has a first symbol equal to the target or deriving to the target. -/
theorem C2_derives_to_symbol_spec (g : Grammar) (start target : Symbol) (fuel : Nat) :
    (start.is_terminal = true →
      g.derives_to_symbol (fuel + 1) start target = some (Except.ok false))
    ∧ (start.is_terminal = false →
        g.rules.find? (fun rule => rule.symbol.text == start.text) = none →
        g.derives_to_symbol (fuel + 1) start target = some (Except.error Err.undefinedNonTerminal))
    ∧ (∀ rule b, start.is_terminal = false →
        g.rules.find? (fun other => other.symbol.text == start.text) = some rule →
        g.derives_to_symbol (fuel + 1) start target = some (Except.ok b) →
        (b = true ↔ ∃ p ∈ rule.derivations, ∃ s, p.symbols.head? = some s ∧
          (s.text = target.text ∨ g.derives_to_symbol fuel s target = some (Except.ok true)))) := by
  refine ⟨?_, ?_, ?_⟩
  · intro ht
    simp [Grammar.derives_to_symbol, ht]
  · intro ht hf
    simp [Grammar.derives_to_symbol, ht, hf]
  · intro rule b ht hf h
    simp only [Grammar.derives_to_symbol, ht, hf] at h
    rw [dtsScan_eq_ok _ target rule.derivations b h]
    apply exists_congr
    intro p
    apply and_congr_right
    intro _
    apply exists_congr
    intro s
    apply and_congr_right
    intro _
    constructor
    · intro hd
      by_cases hst : s.text = target.text
      · exact Or.inl hst
      · right
        have hb : (s.text == target.text) = false := by simpa using hst
        simpa [hb] using hd
    · rintro (hst | hrec)
      · simp [hst]
      · by_cases hst : s.text = target.text
        · simp [hst]
        · have hb : (s.text == target.text) = false := by simpa using hst
          simpa [hb] using hrec

/-- C2 witness: the terminal case, the missing-rule case and the
characterisation, each at a concrete input over the one-rule grammar. -/
theorem C2_witness :
    gA.derives_to_symbol 1 symX symA = some (Except.ok false)
    ∧ gA.derives_to_symbol 1 symB symA = some (Except.error Err.undefinedNonTerminal)
    ∧ (true = true ↔ ∃ p ∈ ruleSelfA.derivations, ∃ s, p.symbols.head? = some s ∧
        (s.text = symA.text ∨ gA.derives_to_symbol 0 s symA = some (Except.ok true))) :=
  ⟨(C2_derives_to_symbol_spec gA symX symA 0).1 rfl,
    (C2_derives_to_symbol_spec gA symB symA 0).2.1 rfl rfl,
    (C2_derives_to_symbol_spec gA symA symA 0).2.2 ruleSelfA true rfl rfl rfl⟩

/-- C3: whenever the indirect check finishes with a boolean, that boolean is
true exactly when some rule derives back to its own left-hand symbol
starting from its own definition (at least one expansion step, because
derives_to_symbol, unlike the helper, does not compare start with target
before expanding); and on the one-rule grammar <A> := <A> it is true. -/
theorem C3_has_indirect_left_recursion_spec (g : Grammar) (fuel : Nat) (b : Bool)
    (h : g.has_indirect_left_recursion fuel = some (Except.ok b)) :
    (b = true ↔ ∃ r ∈ g.rules,
        g.derives_to_symbol fuel r.symbol r.symbol = some (Except.ok true))
    ∧ gA.has_indirect_left_recursion 1 = some (Except.ok true) := by
  constructor
  · have h2 : indirectScan (fun s t => g.derives_to_symbol fuel s t) g.rules
        (some (Except.ok false)) = some (Except.ok b) := h
    rw [indirectScan_eq_ok _ g.rules b h2]
  · rfl

/-- C3 witness: instantiated on the one-rule grammar <A> := <A> at fuel 1,
whose single direct step makes the indirect check true. -/
theorem C3_witness :
    (true = true ↔ ∃ r ∈ gA.rules,
        gA.derives_to_symbol 1 r.symbol r.symbol = some (Except.ok true))
    ∧ gA.has_indirect_left_recursion 1 = some (Except.ok true) :=
  C3_has_indirect_left_recursion_spec gA 1 true rfl

/-- C4: for a rule without empty productions, the direct check is true
exactly when some production's first symbol carries the rule's own
left-hand text; no other rule of any grammar is consulted (the statement
mentions only the rule itself). -/
theorem C4_has_direct_left_recursion_spec (r : Rule)
    (h : ∀ p ∈ r.derivations, p.symbols ≠ []) :
    r.has_direct_left_recursion = Except.ok true ↔
      ∃ p ∈ r.derivations, ∃ s, p.symbols.head? = some s ∧ s.text = r.symbol.text := by
  obtain ⟨c, hc⟩ := directScan_total r.symbol.text r.derivations h
  have hiff := directScan_eq_ok r.symbol.text r.derivations c hc
  have hr : r.has_direct_left_recursion = Except.ok c := hc
  rw [hr]
  constructor
  · intro he
    have hct : c = true := by simpa using he
    exact hiff.mp hct
  · intro hex
    rw [hiff.mpr hex]

/-- C4 witness: the rule <A> := <A> x | y has direct left recursion, the
rule <A> := x <A> | y does not, and the characterisation instantiates on
the former. -/
theorem C4_witness :
    ruleEx1.has_direct_left_recursion = Except.ok true
    ∧ ruleEx2.has_direct_left_recursion = Except.ok false
    ∧ (ruleEx1.has_direct_left_recursion = Except.ok true ↔
        ∃ p ∈ ruleEx1.derivations, ∃ s, p.symbols.head? = some s ∧
          s.text = ruleEx1.symbol.text) :=
  ⟨rfl, rfl, C4_has_direct_left_recursion_spec ruleEx1 (by decide)⟩

/-- C5: contrary to the documented invariant, Production::new accepts the
empty symbol sequence without any error, and the first-symbol access of the
recursion analysis then panics at runtime (the unwrap on the missing first
symbol, modelled as the emptyProductionAccess error): the very runtime
crash the invariant was meant to exclude.  Rule::new likewise accepts the
empty production, so the malformed value flows into analysis unimpeded. -/
theorem C5_empty_production_bug :
    Production.new [] = Production.mk []
    ∧ (Rule.new "<A>" [Production.new []]).map
        (fun r => r.has_direct_left_recursion)
      = Except.ok (Except.error Err.emptyProductionAccess) :=
  ⟨rfl, rfl⟩

/-- C6: when a non-terminal start symbol matches no rule's left-hand text,
derives_to_symbol surfaces the distinguishable undefined-non-terminal
error rather than any boolean. -/
theorem C6_undefined_nonterminal_error (g : Grammar) (start target : Symbol) (fuel : Nat)
    (hnt : start.is_terminal = false)
    (hmiss : ∀ r ∈ g.rules, r.symbol.text ≠ start.text) :
    g.derives_to_symbol (fuel + 1) start target
      = some (Except.error Err.undefinedNonTerminal) := by
  have hf : g.rules.find? (fun rule => rule.symbol.text == start.text) = none := by
    rw [List.find?_eq_none]
    intro r hr
    simpa using hmiss r hr
  simp [Grammar.derives_to_symbol, hnt, hf]

/-- C6 witness: querying the undefined non-terminal <B> in the grammar that
only defines <A> yields the undefined-non-terminal error. -/
theorem C6_witness :
    symB.is_terminal = false
    ∧ gA.derives_to_symbol 1 symB symC = some (Except.error Err.undefinedNonTerminal) :=
  ⟨rfl, C6_undefined_nonterminal_error gA symB symC 0 rfl (by decide)⟩

/-- C7: the leftmost-derivation walk has no visited set.  On the grammar
with rules <A> := <B> and <B> := <A>, whose leftmost-expansion graph is a
cycle avoiding the target <C> and containing no terminal, the query for
<C> finishes at no recursion depth whatsoever: the Rust evaluation does
not terminate. -/
theorem C7_cycle_nontermination :
    ∀ fuel : Nat,
      gCycle.derives_to_symbol fuel symA symC = none
      ∧ gCycle.derives_to_symbol fuel symB symC = none := by
  intro fuel
  induction fuel with
  | zero => exact ⟨rfl, rfl⟩
  | succ n ih => exact ⟨ih.2, ih.1⟩

/-- C8: the example regex grammar constructed in fn main is built without
any constructor panic, and its combined left-recursion check evaluates to
false (fuel 10 exceeds its longest leftmost chain). -/
theorem C8_example_grammar_not_left_recursive :
    mainGrammar.map (fun g => g.has_left_recursion 10)
      = Except.ok (some (Except.ok false)) := rfl

/-- C9 (amended): direct left recursion of a rule r implies indirect left
recursion, provided r is the rule that the linear lookup of its own
left-hand text finds (duplicate left-hand sides can shadow r, which is the
counterexample to the unamended claim), r's left-hand symbol is
non-terminal (as Rule::new guarantees), and the indirect check finishes
with a boolean at the given depth. -/
theorem C9_direct_implies_indirect_first_rule (g : Grammar) (r : Rule) (fuel : Nat) (b : Bool)
    (hfirst : g.rules.find? (fun rule => rule.symbol.text == r.symbol.text) = some r)
    (hnt : r.symbol.is_terminal = false)
    (hdir : r.has_direct_left_recursion = Except.ok true)
    (hterm : g.has_indirect_left_recursion fuel = some (Except.ok b)) :
    b = true := by
  cases b with
  | true => rfl
  | false =>
    exfalso
    have hterm2 : indirectScan (fun s t => g.derives_to_symbol fuel s t) g.rules
        (some (Except.ok false)) = some (Except.ok false) := hterm
    have hall := indirectScan_false_all
      (fun s t => g.derives_to_symbol fuel s t) g.rules hterm2
    have hrmem : r ∈ g.rules := List.mem_of_find?_eq_some hfirst
    have hself : g.derives_to_symbol fuel r.symbol r.symbol = some (Except.ok false) :=
      hall r hrmem
    cases fuel with
    | zero => exact absurd hself (by simp [Grammar.derives_to_symbol])
    | succ n =>
      simp only [Grammar.derives_to_symbol, hnt, hfirst] at hself
      have hchar := dtsScan_eq_ok _ r.symbol r.derivations false hself
      obtain ⟨p, hp, s, hs, hstext⟩ :=
        (directScan_eq_ok r.symbol.text r.derivations true hdir).mp rfl
      have hd : (if s.text == r.symbol.text then some (Except.ok true)
          else g.derives_to_symbol n s r.symbol) = some (Except.ok true) := by
        have hb : (s.text == r.symbol.text) = true := by simpa using hstext
        simp [hb]
      exact absurd (hchar.mpr ⟨p, hp, s, hs, hd⟩) (by simp)

/-- C9 counterexample: in the grammar with the two rules <A> := x and
<A> := <A>, in that order, the later rule has direct left recursion, every
lookup succeeds (it finds the earlier rule), and the indirect check
finishes with false, so direct recursion does not imply indirect recursion
for grammars with duplicate left-hand sides. -/
theorem C9_counterexample :
    ruleSelfA.has_direct_left_recursion = Except.ok true
    ∧ gDup.rules = [ruleAx, ruleSelfA]
    ∧ gDup.rules.find? (fun rule => rule.symbol.text == symA.text) = some ruleAx
    ∧ gDup.has_indirect_left_recursion 2 = some (Except.ok false) :=
  ⟨rfl, rfl, rfl, rfl⟩

/-- C9 witness: on the one-rule grammar <A> := <A> all hypotheses of the
amended implication hold concretely and the conclusion is obtained from
the theorem. -/
theorem C9_witness :
    gA.rules.find? (fun rule => rule.symbol.text == ruleSelfA.symbol.text) = some ruleSelfA
    ∧ ruleSelfA.symbol.is_terminal = false
    ∧ ruleSelfA.has_direct_left_recursion = Except.ok true
    ∧ gA.has_indirect_left_recursion 1 = some (Except.ok true)
    ∧ true = true :=
  ⟨rfl, rfl, rfl, rfl,
    C9_direct_implies_indirect_first_rule gA ruleSelfA 1 true rfl rfl rfl rfl⟩

/-- A list element rejected by the predicate can be dropped without
changing the result of the linear find. -/
theorem find?_skip (r2 : Rule) (p : Rule → Bool) (h2 : p r2 = false) :
    ∀ (pre post : List Rule),
      (pre ++ r2 :: post).find? p = (pre ++ post).find? p := by
  intro pre
  induction pre with
  | nil =>
    intro post
    simp [List.find?, h2]
  | cons a pre ih =>
    intro post
    cases hpa : p a with
    | true => simp [List.find?, hpa]
    | false => simp [List.find?, hpa, ih post]

/-- A later list element whose predicate value matches that of an earlier
element can be dropped without changing the result of the linear find: the
scan either stops at or before the earlier element, or rejects both. -/
theorem find?_shadow (r1 r2 : Rule) (p : Rule → Bool) (hp : p r2 = p r1) :
    ∀ (pre post : List Rule), r1 ∈ pre →
      (pre ++ r2 :: post).find? p = (pre ++ post).find? p := by
  intro pre
  induction pre with
  | nil =>
    intro post h1
    cases h1
  | cons a pre ih =>
    intro post h1
    cases hpa : p a with
    | true => simp [List.find?, hpa]
    | false =>
      rcases List.mem_cons.mp h1 with h | h
      · have h2 : p r2 = false := by rw [hp, h]; exact hpa
        simp [List.find?, hpa, find?_skip r2 p h2 pre post]
      · simp [List.find?, hpa, ih post h]

/-- Replacing the recursive helper by a pointwise equal one does not change
the production fold. -/
theorem dtsScan_congr (d d2 : Symbol → Symbol → Option (Except Err Bool)) (target : Symbol)
    (h : ∀ s t, d s t = d2 s t) :
    ∀ (l : List Production) (acc : Option (Except Err Bool)),
      dtsScan d target l acc = dtsScan d2 target l acc := by
  intro l
  induction l with
  | nil => intro acc; rfl
  | cons p ps ih =>
    intro acc
    match acc with
    | none =>
      simp only [dtsScan]
      exact ih _
    | some (Except.error e) =>
      simp only [dtsScan]
      exact ih _
    | some (Except.ok true) =>
      simp only [dtsScan]
      exact ih _
    | some (Except.ok false) =>
      simp only [dtsScan]
      cases hh : p.symbols.head? with
      | none =>
        simp only [hh]
        exact ih _
      | some s =>
        simp only [hh, h s target]
        exact ih _

/-- Replacing the reachability query by a pointwise equal one does not
change the rule fold of the indirect check. -/
theorem indirectScan_congr (d d2 : Symbol → Symbol → Option (Except Err Bool))
    (h : ∀ s t, d s t = d2 s t) :
    ∀ (l : List Rule) (acc : Option (Except Err Bool)),
      indirectScan d l acc = indirectScan d2 l acc := by
  intro l
  induction l with
  | nil => intro acc; rfl
  | cons r rs ih =>
    intro acc
    match acc with
    | none =>
      simp only [indirectScan]
      exact ih _
    | some (Except.error e) =>
      simp only [indirectScan]
      exact ih _
    | some (Except.ok true) =>
      simp only [indirectScan]
      exact ih _
    | some (Except.ok false) =>
      simp only [indirectScan, h r.symbol r.symbol]
      exact ih _

/-- The rule fold of the indirect check composes over list append. -/
theorem indirectScan_append (d : Symbol → Symbol → Option (Except Err Bool)) :
    ∀ (l1 l2 : List Rule) (acc : Option (Except Err Bool)),
      indirectScan d (l1 ++ l2) acc = indirectScan d l2 (indirectScan d l1 acc) := by
  intro l1
  induction l1 with
  | nil => intro l2 acc; rfl
  | cons r rs ih =>
    intro l2 acc
    simp only [List.cons_append, indirectScan]
    exact ih l2 _

/-- C10 (amended): a rule whose left-hand text already occurs on an earlier
rule is invisible to derives_to_symbol (the linear scan stops at the
earliest match) and to the indirect check; removing such a shadowed
duplicate changes neither result.  (The per-rule direct scan of
has_left_recursion does still see the duplicate, which is the
counterexample to the unamended claim.) -/
theorem C10_shadowed_duplicate_invisible (pre post : List Rule) (r1 r2 : Rule)
    (h1 : r1 ∈ pre) (heq : r1.symbol.text = r2.symbol.text) :
    (∀ fuel start target,
      (Grammar.mk (pre ++ r2 :: post)).derives_to_symbol fuel start target =
        (Grammar.mk (pre ++ post)).derives_to_symbol fuel start target)
    ∧ (∀ fuel,
      (Grammar.mk (pre ++ r2 :: post)).has_indirect_left_recursion fuel =
        (Grammar.mk (pre ++ post)).has_indirect_left_recursion fuel) := by
  have hsym : r1.symbol = r2.symbol := by
    cases hs1 : r1.symbol with
    | mk t1 =>
      cases hs2 : r2.symbol with
      | mk t2 =>
        rw [hs1, hs2] at heq
        simpa using heq
  have hdts : ∀ fuel start target,
      (Grammar.mk (pre ++ r2 :: post)).derives_to_symbol fuel start target =
        (Grammar.mk (pre ++ post)).derives_to_symbol fuel start target := by
    intro fuel
    induction fuel with
    | zero => intro start target; rfl
    | succ n ih =>
      intro start target
      simp only [Grammar.derives_to_symbol]
      by_cases ht : start.is_terminal = true
      · simp [ht]
      · have hfind : (pre ++ r2 :: post).find?
              (fun rule => rule.symbol.text == start.text)
            = (pre ++ post).find? (fun rule => rule.symbol.text == start.text) := by
          have hp : (fun rule => rule.symbol.text == start.text) r2
              = (fun rule => rule.symbol.text == start.text) r1 := by
            simp only [hsym]
          exact find?_shadow r1 r2 _ hp pre post h1
        simp only [ht, Bool.false_eq_true, if_false]
        rw [hfind]
        cases hf : (pre ++ post).find? (fun rule => rule.symbol.text == start.text) with
        | none => rfl
        | some rule =>
          have hpt : ∀ s t,
              (if s.text == t.text then some (Except.ok true)
                else (Grammar.mk (pre ++ r2 :: post)).derives_to_symbol n s t)
              = (if s.text == t.text then some (Except.ok true)
                else (Grammar.mk (pre ++ post)).derives_to_symbol n s t) := by
            intro s t
            by_cases hst : (s.text == t.text) = true
            · simp [hst]
            · simp [hst, ih s t]
          exact dtsScan_congr _ _ target hpt rule.derivations _
  refine ⟨hdts, ?_⟩
  intro fuel
  show indirectScan
      (fun s t => (Grammar.mk (pre ++ r2 :: post)).derives_to_symbol fuel s t)
      (pre ++ r2 :: post) (some (Except.ok false))
    = indirectScan
      (fun s t => (Grammar.mk (pre ++ post)).derives_to_symbol fuel s t)
      (pre ++ post) (some (Except.ok false))
  rw [indirectScan_congr _ _ (fun s t => hdts fuel s t)]
  rw [indirectScan_append _ pre (r2 :: post), indirectScan_append _ pre post]
  cases hAv : indirectScan
      (fun s t => (Grammar.mk (pre ++ post)).derives_to_symbol fuel s t)
      pre (some (Except.ok false)) with
  | none =>
    rw [indirectScan_noneAcc, indirectScan_noneAcc]
  | some v =>
    match v with
    | Except.error e =>
      rw [indirectScan_errorAcc, indirectScan_errorAcc]
    | Except.ok true =>
      rw [indirectScan_trueAcc, indirectScan_trueAcc]
    | Except.ok false =>
      have hr1v : (fun s t => (Grammar.mk (pre ++ post)).derives_to_symbol fuel s t)
          r1.symbol r1.symbol = some (Except.ok false) :=
        indirectScan_false_all _ pre hAv r1 h1
      have hr2v : (Grammar.mk (pre ++ post)).derives_to_symbol fuel r2.symbol r2.symbol
          = some (Except.ok false) := by
        rw [← hsym]
        exact hr1v
      simp only [indirectScan, hr2v]

/-- C10 counterexample: appending the duplicate rule <A> := <A> after
<A> := x flips has_left_recursion from false to true, because the per-rule
direct scan does inspect the shadowed duplicate, so later duplicates do
influence a recursion-analysis result. -/
theorem C10_counterexample :
    ruleAx.symbol.text = ruleSelfA.symbol.text
    ∧ gDup.rules = [ruleAx, ruleSelfA]
    ∧ gDup.has_left_recursion 2 = some (Except.ok true)
    ∧ (Grammar.mk [ruleAx]).has_left_recursion 2 = some (Except.ok false) :=
  ⟨rfl, rfl, rfl, rfl⟩

/-- C10 witness: dropping the shadowed duplicate <A> := <A> after <A> := x
changes neither the derivability query nor the indirect check at concrete
inputs. -/
theorem C10_witness :
    (Grammar.mk ([ruleAx] ++ ruleSelfA :: [])).derives_to_symbol 2 symA symX
      = (Grammar.mk ([ruleAx] ++ [])).derives_to_symbol 2 symA symX
    ∧ (Grammar.mk ([ruleAx] ++ ruleSelfA :: [])).has_indirect_left_recursion 2
      = (Grammar.mk ([ruleAx] ++ [])).has_indirect_left_recursion 2 :=
  ⟨(C10_shadowed_duplicate_invisible [ruleAx] [] ruleAx ruleSelfA
      (List.mem_cons_self ruleAx []) rfl).1 2 symA symX,
    (C10_shadowed_duplicate_invisible [ruleAx] [] ruleAx ruleSelfA
      (List.mem_cons_self ruleAx []) rfl).2 2⟩

end LeftRec
